import Mathlib

/-!
Shallow embedding of the npm feed polling engine of the package-feeds
repository (src/feeds/npm/npm.go), together with proofs of the frozen
claims about it.

Network input is modelled by a response environment: each package name is
mapped to the response its metadata endpoint returns, and the activity
feed fetch is a value of type Except. Goroutine fan-out and channel
fan-in are modelled by an explicit arrival order: every dispatched task
contributes exactly one outcome, and the fan-in loop processes the
outcomes in an arbitrary permutation of the dispatched tasks. A Go
runtime panic (out-of-range slice, failed type assertion) is a
distinguished outcome value, since it aborts the whole call.
-/

namespace PackageFeeds

/-- Model of a decoded JSON value as produced by json.Unmarshal into
map[string]interface{}: a string, a non-string scalar, or a nested
object. Objects are association lists in iteration order; Go maps
obtained from JSON have pairwise distinct keys. -/
inductive JSONVal : Type
  | str (s : String)
  | num (n : Int)
  | obj (fields : List (String × JSONVal))

/-- Model of Go map indexing jsonMap[key]: the value at the first
matching key, if any. -/
def lookupField : List (String × JSONVal) → String → Option JSONVal
  | [], _ => none
  | (k, v) :: rest, key => if k = key then some v else lookupField rest key

/-- Numeric value of a list of decimal digit characters. -/
def digitsVal (l : List Char) : Nat :=
  l.foldl (fun n c => 10 * n + (c.toNat - 48)) 0

/-- Model of Go time.Parse(time.RFC3339, s). The concrete timestamp
grammar is abstracted: a timestamp string is valid exactly when it is a
nonempty string of decimal digits, and its parsed instant is its numeric
value. Instants are integers ordered by the usual order, which models
time.Time with Before as the strict order. Parse failure is none. -/
def timeParse (s : String) : Option Int :=
  if s.data ≠ [] ∧ s.data.all Char.isDigit then some (digitsVal s.data) else none

/-- The npm Package struct of src/feeds/npm/npm.go: one resolved
(version, created date) record for a package. The Unpublished field is
declared in the source but never written, so it stays false. -/
structure Package where
  Title : String
  CreatedDate : Int
  Version : String
  Unpublished : Bool := false
  deriving DecidableEq, Repr

/-- Modelled from the spec: the ReleaseEvent record feeds.Package
(package name, version identifier, publish timestamp, source-feed tag);
the feeds package is outside src/. The Go field named Type is rendered
TypeTag because Type is reserved in Lean. -/
structure FeedsPackage where
  Name : String
  Version : String
  CreatedDate : Int
  TypeTag : String
  deriving DecidableEq, Repr

/-- Modelled from the spec: feeds.NewPackage, the ReleaseEvent
constructor used by the fan-in loops; the feeds package is outside
src/. -/
def NewPackage (created : Int) (name version feedName : String) : FeedsPackage :=
  { Name := name, Version := version, CreatedDate := created, TypeTag := feedName }

/-- The FeedName constant of src/feeds/npm/npm.go. -/
def FeedName : String := "npm"

/-- Structured model of the error values the npm feed produces. The
constructors carry exactly the  data that the corresponding Go error
messages interpolate. -/
inductive NpmError : Type
  | transport (cause : String)
  | jsonUnmarshal (detail pkg : String)
  | timeNotFound (pkg : String)
  | unpublished (pkg : String)
  | timeParseErr (s : String)
  | packagePoll (name : String) (err : NpmError)
  | feedFetch (cause : String)
  | noPackagesPolled
  deriving DecidableEq, Repr

/-- Rendering of each error as its Go message string. The transport,
jsonUnmarshal, timeNotFound, unpublished and feedFetch texts follow the
fmt.Errorf format strings in src/feeds/npm/npm.go. The packagePoll and
noPackagesPolled messages are modelled from the spec: the types
feeds.PackagePollError and feeds.ErrNoPackagesPolled are outside src/,
and the spec states that a PackagePollError message contains the
offending package name and the underlying failure cause. -/
def errMessage : NpmError → String
  | .transport cause => "failed to fetch npm package version data: " ++ cause
  | .jsonUnmarshal detail pkg =>
      "error unmarshaling json response internally : " ++ detail ++ " for package " ++ pkg
  | .timeNotFound pkg =>
      "error unmarshaling json response internally : time not found for package " ++ pkg ++ " "
  | .unpublished pkg => pkg ++ " package is currently unpublished"
  | .timeParseErr s => "parsing time " ++ s ++ " as RFC3339: cannot parse"
  | .packagePoll name e => "error when polling for package " ++ name ++ ": " ++ errMessage e
  | .feedFetch cause => "failed to fetch npm package data: " ++ cause
  | .noPackagesPolled => "no packages were successfully polled"

/-- Model of errors.Is(err, errUnpublished): whether the error is the
unpublished sentinel, through any PackagePollError wrapping. -/
def isUnpublished : NpmError → Bool
  | .unpublished _ => true
  | .packagePoll _ e => isUnpublished e
  | _ => false

/-- The response of one package metadata endpoint, as fetchPackage
observes it: a transport-level failure (connection error or non-success
status), a body that json.Unmarshal rejects, or a decoded document. -/
inductive PkgResponse : Type
  | transportErr (cause : String)
  | badJSON (detail : String)
  | doc (fields : List (String × JSONVal))

/-- Outcome of a fallible computation that may also hit a Go runtime
panic. -/
inductive FetchResult (α : Type) : Type
  | ok (val : α)
  | err (e : NpmError)
  | panicked
  deriving DecidableEq

/-- The version-building loop of fetchPackage: for each (version,
timestamp) entry, in map iteration order, the unchecked type assertion
timestamp.(string) panics on a non-string value, then time.Parse either
fails the whole call or appends a Package record. -/
def buildVersions (pkgTitle : String) : List (String × JSONVal) → FetchResult (List Package)
  | [] => .ok []
  | (version, .str ts) :: rest =>
    match timeParse ts with
    | none => .err (.timeParseErr ts)
    | some date =>
      match buildVersions pkgTitle rest with
      | .ok l => .ok ({ Title := pkgTitle, CreatedDate := date, Version := version } :: l)
      | r => r
  | (_, _) :: _ => .panicked

/-- Descending order on npm Package records by created date. The Go
comparator passed to sort.SliceStable is less(i, j) iff date j is
strictly before date i; a stable sort under that comparator is exactly
the stable sort under this total preorder. -/
def pkgGE (a b : Package) : Prop := b.CreatedDate ≤ a.CreatedDate

instance : DecidableRel pkgGE := fun _ _ => inferInstanceAs (Decidable (_ ≤ _))

instance : IsTotal Package pkgGE :=
  ⟨fun x y => (Int.le_total y.CreatedDate x.CreatedDate).elim Or.inl Or.inr⟩

instance : IsTrans Package pkgGE :=
  ⟨fun _ _ _ hab hbc => le_trans hbc hab⟩

/-- The two delete calls of fetchPackage: remove the created and
modified bookkeeping entries from the time map, keeping every actual
(version, timestamp) pair. -/
def remainingVersions (versions : List (String × JSONVal)) : List (String × JSONVal) :=
  versions.filter fun kv => !(kv.1 == "created") && !(kv.1 == "modified")

/-- The fetchPackage function of src/feeds/npm/npm.go, given the
response of the package metadata endpoint: checks transport status,
unmarshals, requires a time map, returns the unpublished sentinel if the
map carries an unpublished marker, drops the created and modified
bookkeeping keys, builds the version records and stable-sorts them
newest first. -/
def fetchPackage (pkgTitle : String) (resp : PkgResponse) : FetchResult (List Package) :=
  match resp with
  | .transportErr cause => .err (.transport cause)
  | .badJSON detail => .err (.jsonUnmarshal detail pkgTitle)
  | .doc jsonMap =>
    match lookupField jsonMap "time" with
    | some (.obj versions) =>
      if (lookupField versions "unpublished").isSome then
        .err (.unpublished pkgTitle)
      else
        match buildVersions pkgTitle (remainingVersions versions) with
        | .ok versionSlice => .ok (versionSlice.insertionSort pkgGE)
        | .err e => .err e
        | .panicked => .panicked
    | _ => .err (.timeNotFound pkgTitle)

/-- The Package record the version-building loop constructs for one
(version, timestamp) entry, used to state what buildVersions returns
when every timestamp is a parseable string. -/
def recordOf (pkgTitle : String) (kv : String × JSONVal) : Package :=
  { Title := pkgTitle,
    CreatedDate := match kv.2 with | .str s => (timeParse s).getD 0 | _ => 0,
    Version := kv.1 }

/-- Whether a timestamp-map value is a string that time.Parse accepts. -/
def strParses : JSONVal → Bool
  | .str s => (timeParse s).isSome
  | _ => false

/-- Whether every value of the response time map outside the created and
modified bookkeeping keys is a string, unless the map carries an
unpublished marker (in which case fetchPackage returns before reading
the values). This is the precondition under which the unchecked type
assertion of the version-building loop cannot panic. -/
def strTimeVals : PkgResponse → Bool
  | .doc fields =>
    match lookupField fields "time" with
    | some (.obj versions) =>
      (lookupField versions "unpublished").isSome ||
        (remainingVersions versions).all fun kv =>
          match kv.2 with | .str _ => true | _ => false
    | _ => true
  | _ => true

/-- Whether the response time map, if any, has pairwise distinct keys.
Documents decoded by json.Unmarshal into a Go map always satisfy this;
it is stated explicitly because the embedding represents objects as
association lists. -/
def wfTimeKeys : PkgResponse → Bool
  | .doc fields =>
    match lookupField fields "time" with
    | some (.obj versions) => decide (versions.map Prod.fst).Nodup
    | _ => true
  | _ => true

/-- The list a successful fetch resolves, empty for errors and panics;
used to phrase sibling-isolation conclusions. -/
def okList : FetchResult (List Package) → List Package
  | .ok l => l
  | _ => []

/-- Whether a fetch result is a success. -/
def isOkFetch : FetchResult (List Package) → Bool
  | .ok _ => true
  | _ => false

/-- Outcome of one resolution goroutine as seen by the fan-in select
loop: a block of converted ReleaseEvents, or the single error it sends
on the error channel, or a runtime panic that takes the whole call
down. -/
inductive TaskOut : Type
  | pkgs (l : List FeedsPackage)
  | err (e : NpmError)
  | panicked
  deriving DecidableEq

/-- The goroutine body of fetchAllPackages for one (pkgTitle, count)
entry of uniquePackages: resolve the package, slice its newest count
versions, convert them to ReleaseEvents; wrap every error except the
unpublished sentinel in a PackagePollError. Slicing pkgs with count
greater than the number of resolved versions is a Go runtime panic
(out-of-range slice bound, or a nil record dereference in the fan-in
loop when spare capacity covers the bound). -/
def allPackagesTask (env : String → PkgResponse) (entry : String × Nat) : TaskOut :=
  match fetchPackage entry.1 (env entry.1) with
  | .ok pkgs =>
    if entry.2 ≤ pkgs.length then
      .pkgs ((pkgs.take entry.2).map fun p => NewPackage p.CreatedDate p.Title p.Version FeedName)
    else .panicked
  | .err e => .err (if isUnpublished e then e else .packagePoll entry.1 e)
  | .panicked => .panicked

/-- The goroutine body of fetchCriticalPackages for one watched package
name: resolve the package and convert every resolved version; wrap
every error except the unpublished sentinel in a PackagePollError. -/
def criticalTask (env : String → PkgResponse) (pkgTitle : String) : TaskOut :=
  match fetchPackage pkgTitle (env pkgTitle) with
  | .ok pkgs => .pkgs (pkgs.map fun p => NewPackage p.CreatedDate p.Title p.Version FeedName)
  | .err e => .err (if isUnpublished e then e else .packagePoll pkgTitle e)
  | .panicked => .panicked

/-- The ReleaseEvents one task outcome appends to the pkgs slice. -/
def taskPkgs : TaskOut → List FeedsPackage
  | .pkgs l => l
  | _ => []

/-- The error one task outcome appends to the errs slice, if any: in
discovery mode (dropUnpublished true) the fan-in loop discards the
unpublished sentinel instead of recording it. -/
def taskErr (dropUnpublished : Bool) : TaskOut → Option NpmError
  | .err e => if dropUnpublished && isUnpublished e then none else some e
  | _ => none

/-- Whether a task outcome is a runtime panic. -/
def isPanicOut : TaskOut → Bool
  | .panicked => true
  | _ => false

/-- Result of one aggregation call: the collected ReleaseEvents and
errors, or a runtime panic of the whole call. -/
inductive AggResult : Type
  | ok (pkgs : List FeedsPackage) (errs : List NpmError)
  | panicked
  deriving DecidableEq

/-- The fan-in select loop shared by both aggregators, applied to the
task outcomes in channel arrival order: if any goroutine panicked the
whole call panics; otherwise pkgs is the concatenation of the success
blocks and errs the recorded errors, both in arrival order. -/
def fanIn (dropUnpublished : Bool) (outs : List TaskOut) : AggResult :=
  if outs.any isPanicOut then .panicked
  else .ok ((outs.map taskPkgs).flatten) (outs.filterMap (taskErr dropUnpublished))

/-- The uniquePackages map of fetchAllPackages: one entry per distinct
mentioned title, carrying its mention count in the feed pull. The Go
map is unordered; its entry set is represented in first-encounter
order, and the arrival-order parameter of fetchAllPackages ranges over
its permutations. -/
def uniquePackages (packageEvents : List String) : List (String × Nat) :=
  packageEvents.dedup.map fun title => (title, packageEvents.count title)

/-- The fetchAllPackages function of src/feeds/npm/npm.go (discovery
mode). The packageEvents argument is the result of fetchPackageEvents
(the titles of the feed pull, or its error, in which case the call
returns early with that single error). The arrival argument is the
order in which the fan-in loop receives the per-task outcomes; theorems
constrain it to a permutation of uniquePackages of the feed pull. -/
def fetchAllPackages (env : String → PkgResponse)
    (packageEvents : Except NpmError (List String))
    (arrival : List (String × Nat)) : AggResult :=
  match packageEvents with
  | .error e => .ok [] [e]
  | .ok _ => fanIn true (arrival.map (allPackagesTask env))

/-- The fetchCriticalPackages function of src/feeds/npm/npm.go
(watch-list mode). The arrival argument is the order in which the
fan-in loop receives the per-task outcomes; theorems constrain it to a
permutation of the configured package list. -/
def fetchCriticalPackages (env : String → PkgResponse)
    (arrival : List String) : AggResult :=
  fanIn false (arrival.map (criticalTask env))

/-- The npm Feed struct: the configured watch list is an optional
pointer, nil meaning discovery mode. -/
structure Feed where
  packages : Option (List String)

/-- Descending order on ReleaseEvents by created date, the comparator
of the sort.SliceStable call in Feed.Latest. -/
def feedGE (a b : FeedsPackage) : Prop := b.CreatedDate ≤ a.CreatedDate

instance : DecidableRel feedGE := fun _ _ => inferInstanceAs (Decidable (_ ≤ _))

instance : IsTotal FeedsPackage feedGE :=
  ⟨fun x y => (Int.le_total y.CreatedDate x.CreatedDate).elim Or.inl Or.inr⟩

instance : IsTrans FeedsPackage feedGE :=
  ⟨fun _ _ _ hab hbc => le_trans hbc hab⟩

/-- Modelled from the spec: feeds.ApplyCutoff (outside src/) retains
only the releases whose publish timestamp is strictly after the cutoff,
preserving relative order. -/
def ApplyCutoff (pkgs : List FeedsPackage) (cutoff : Int) : List FeedsPackage :=
  pkgs.filter fun p => cutoff < p.CreatedDate

/-- The mode dispatch at the top of Feed.Latest: discovery mode when the
packages pointer is nil, watch-list mode otherwise. -/
def aggregate (feed : Feed) (env : String → PkgResponse)
    (packageEvents : Except NpmError (List String))
    (arrivalAll : List (String × Nat)) (arrivalCritical : List String) : AggResult :=
  match feed.packages with
  | none => fetchAllPackages env packageEvents arrivalAll
  | some _ => fetchCriticalPackages env arrivalCritical

/-- The Feed.Latest method of src/feeds/npm/npm.go: aggregate in the
selected mode; if nothing was polled, return empty output with
NoPackagesPolled appended to the errors; otherwise stable-sort the
releases newest first and apply the cutoff filter. The lossy feed
alerter call is an outbound observer with no effect on the returned
value and is not modelled. A runtime panic of a goroutine is the none
result. -/
def Feed.Latest (feed : Feed) (env : String → PkgResponse)
    (packageEvents : Except NpmError (List String))
    (arrivalAll : List (String × Nat)) (arrivalCritical : List String)
    (cutoff : Int) : Option (List FeedsPackage × List NpmError) :=
  match aggregate feed env packageEvents arrivalAll arrivalCritical with
  | .panicked => none
  | .ok pkgs errs =>
    if pkgs.length = 0 then some ([], errs ++ [.noPackagesPolled])
    else some (ApplyCutoff (pkgs.insertionSort feedGE) cutoff, errs)

/-- Whether sub occurs as a contiguous run of characters inside l, the
model of strings.Contains used to state claims about error texts. -/
def strContainsAux (sub : List Char) : List Char → Bool
  | [] => sub.isEmpty
  | c :: rest => sub.isPrefixOf (c :: rest) || strContainsAux sub rest

/-- Whether sub is a substring of s. -/
def strContains (s sub : String) : Bool := strContainsAux sub.data s.data

/-- Example metadata document with one version, 1.0 at instant 5, plus
the created and modified bookkeeping entries. -/
def exDocOne : PkgResponse :=
  .doc [("name", .str "pkg"),
    ("time", .obj [("created", .str "1"), ("1.0", .str "5"), ("modified", .str "9")])]

/-- Example time map with two versions, 1.0 at instant 5 and 1.1 at
instant 7, plus the bookkeeping entries. -/
def exTimeTwo : List (String × JSONVal) :=
  [("created", .str "1"), ("1.0", .str "5"), ("modified", .str "9"), ("1.1", .str "7")]

/-- Example top-level fields of a metadata document holding exTimeTwo. -/
def exFieldsTwo : List (String × JSONVal) :=
  [("name", .str "pkg"), ("time", .obj exTimeTwo)]

/-- Example metadata document with two versions, 1.0 at instant 5 and
1.1 at instant 7. -/
def exDocTwo : PkgResponse := .doc exFieldsTwo

/-- Example metadata document carrying an unpublished marker. -/
def exDocUnpub : PkgResponse :=
  .doc [("name", .str "pkg"),
    ("time", .obj [("created", .str "1"), ("1.0", .str "5"),
      ("unpublished", .obj [("name", .str "someone")])])]

/-- Example metadata document whose time map holds a non-string value. -/
def exDocBadVal : PkgResponse :=
  .doc [("time", .obj [("1.0", .num 3)])]

/-- Example registry environment: package A resolves two versions,
package B fails with a not-found status, package Q is unpublished, and
every other package resolves one version. -/
def exEnv : String → PkgResponse := fun t =>
  if t = "A" then exDocTwo
  else if t = "B" then .transportErr "404 not found"
  else if t = "Q" then exDocUnpub
  else exDocOne

theorem strContainsAux_prefix (sub rest : List Char) :
    strContainsAux sub (sub ++ rest) = true := by
  cases sub with
  | nil =>
    cases rest with
    | nil => rfl
    | cons c t => simp [strContainsAux]
  | cons c t =>
    simp only [List.cons_append, strContainsAux, Bool.or_eq_true]
    left
    exact List.isPrefixOf_iff_prefix.mpr ⟨rest, by simp⟩

theorem strContainsAux_append (sub x y : List Char) :
    strContainsAux sub (x ++ (sub ++ y)) = true := by
  induction x with
  | nil => simpa using strContainsAux_prefix sub y
  | cons c t ih =>
    simp only [List.cons_append, strContainsAux, Bool.or_eq_true]
    right
    exact ih

/-- A substring surrounded by arbitrary text is found by strContains. -/
theorem strContains_middle (a b c : String) : strContains (a ++ b ++ c) b = true := by
  have : (a ++ b ++ c).data = a.data ++ (b.data ++ c.data) := by
    simp [String.data_append]
  rw [strContains, this]
  exact strContainsAux_append b.data a.data c.data

theorem strContains_left (b c : String) : strContains (b ++ c) b = true := by
  have h := strContains_middle "" b c
  simpa using h

theorem strContains_right (a b : String) : strContains (a ++ b) b = true := by
  have h := strContains_middle a b ""
  simpa using h

theorem buildVersions_titles {pkgTitle : String} :
    ∀ {l : List (String × JSONVal)} {vs : List Package},
      buildVersions pkgTitle l = .ok vs → ∀ p ∈ vs, p.Title = pkgTitle
  | [], vs, h => by
    simp only [buildVersions, FetchResult.ok.injEq] at h
    subst h
    simp
  | (version, .str ts) :: rest, vs, h => by
    simp only [buildVersions] at h
    cases hp : timeParse ts with
    | none => rw [hp] at h; exact absurd h (by simp)
    | some date =>
      rw [hp] at h
      cases hr : buildVersions pkgTitle rest with
      | ok l2 =>
        rw [hr] at h
        simp only [FetchResult.ok.injEq] at h
        subst h
        intro p hp2
        rcases List.mem_cons.mp hp2 with rfl | hmem
        · rfl
        · exact buildVersions_titles hr p hmem
      | err e => rw [hr] at h; exact absurd h (by simp)
      | panicked => rw [hr] at h; exact absurd h (by simp)
  | (version, .num n) :: rest, vs, h => by
    simp [buildVersions] at h
  | (version, .obj fs) :: rest, vs, h => by
    simp [buildVersions] at h

theorem buildVersions_ok_of_parses {pkgTitle : String} :
    ∀ {l : List (String × JSONVal)},
      (∀ kv ∈ l, strParses kv.2 = true) →
      buildVersions pkgTitle l = .ok (l.map (recordOf pkgTitle))
  | [], _ => rfl
  | (version, v) :: rest, h => by
    have hv := h (version, v) (List.mem_cons_self _ _)
    cases v with
    | str ts =>
      simp only [strParses] at hv
      rcases Option.isSome_iff_exists.mp hv with ⟨date, hdate⟩
      have ih : buildVersions pkgTitle rest = .ok (rest.map (recordOf pkgTitle)) :=
        buildVersions_ok_of_parses fun kv hkv => h kv (List.mem_cons_of_mem _ hkv)
      simp [buildVersions, hdate, ih, recordOf]
    | num n => simp [strParses] at hv
    | obj fs => simp [strParses] at hv

theorem buildVersions_ne_panicked {pkgTitle : String} :
    ∀ {l : List (String × JSONVal)},
      (∀ kv ∈ l, (match kv.2 with | .str _ => true | _ => false) = true) →
      buildVersions pkgTitle l ≠ .panicked
  | [], _ => by simp [buildVersions]
  | (version, v) :: rest, h => by
    have hv := h (version, v) (List.mem_cons_self _ _)
    cases v with
    | str ts =>
      have ih : buildVersions pkgTitle rest ≠ .panicked :=
        buildVersions_ne_panicked fun kv hkv => h kv (List.mem_cons_of_mem _ hkv)
      simp only [buildVersions]
      cases hp : timeParse ts with
      | none => simp
      | some date =>
        cases hr : buildVersions pkgTitle rest with
        | ok l2 => simp
        | err e => simp
        | panicked => exact absurd hr ih
    | num n => simp at hv
    | obj fs => simp at hv

/-- Every record a successful fetchPackage returns carries the fetched
package title. -/
theorem fetchPackage_titles {pkgTitle : String} {resp : PkgResponse} {vs : List Package}
    (h : fetchPackage pkgTitle resp = .ok vs) : ∀ p ∈ vs, p.Title = pkgTitle := by
  cases resp with
  | transportErr cause => simp [fetchPackage] at h
  | badJSON detail => simp [fetchPackage] at h
  | doc jsonMap =>
    simp only [fetchPackage] at h
    cases hl : lookupField jsonMap "time" with
    | none => rw [hl] at h; simp at h
    | some v =>
      rw [hl] at h
      cases v with
      | str s => simp at h
      | num n => simp at h
      | obj versions =>
        simp only at h
        by_cases hu : (lookupField versions "unpublished").isSome
        · simp [hu] at h
        · simp only [hu, if_false, Bool.false_eq_true] at h
          cases hb : buildVersions pkgTitle (remainingVersions versions) with
          | ok versionSlice =>
            rw [hb] at h
            simp only [FetchResult.ok.injEq] at h
            subst h
            intro p hp
            have hmem : p ∈ versionSlice := (List.mem_insertionSort pkgGE).mp hp
            exact buildVersions_titles hb p hmem
          | err e => rw [hb] at h; simp at h
          | panicked => rw [hb] at h; simp at h

/-- Every error the version-building loop can return is a timestamp
parse error. -/
theorem buildVersions_err_shape {pkgTitle : String} :
    ∀ {l : List (String × JSONVal)} {e : NpmError},
      buildVersions pkgTitle l = .err e → ∃ s, e = .timeParseErr s
  | [], e, h => by simp [buildVersions] at h
  | (version, .str ts) :: rest, e, h => by
    simp only [buildVersions] at h
    cases hp : timeParse ts with
    | none =>
      rw [hp] at h
      simp only [FetchResult.err.injEq] at h
      exact ⟨ts, h.symm⟩
    | some date =>
      rw [hp] at h
      cases hr : buildVersions pkgTitle rest with
      | ok l2 => rw [hr] at h; simp at h
      | err e2 =>
        rw [hr] at h
        simp only [FetchResult.err.injEq] at h
        exact h ▸ buildVersions_err_shape hr
      | panicked => rw [hr] at h; simp at h
  | (version, .num n) :: rest, e, h => by simp [buildVersions] at h
  | (version, .obj fs) :: rest, e, h => by simp [buildVersions] at h

/-- The only unpublished-flavoured error fetchPackage can return is the
unpublished sentinel carrying the fetched package title. -/
theorem fetchPackage_err_isUnpublished {pkgTitle : String} {resp : PkgResponse} {e : NpmError}
    (h : fetchPackage pkgTitle resp = .err e) (hu : isUnpublished e = true) :
    e = .unpublished pkgTitle := by
  cases resp with
  | transportErr cause =>
    simp only [fetchPackage, FetchResult.err.injEq] at h
    subst h
    simp [isUnpublished] at hu
  | badJSON detail =>
    simp only [fetchPackage, FetchResult.err.injEq] at h
    subst h
    simp [isUnpublished] at hu
  | doc jsonMap =>
    simp only [fetchPackage] at h
    cases hl : lookupField jsonMap "time" with
    | none =>
      rw [hl] at h
      simp only [FetchResult.err.injEq] at h
      subst h
      simp [isUnpublished] at hu
    | some v =>
      rw [hl] at h
      cases v with
      | str s =>
        simp only [FetchResult.err.injEq] at h
        subst h
        simp [isUnpublished] at hu
      | num n =>
        simp only [FetchResult.err.injEq] at h
        subst h
        simp [isUnpublished] at hu
      | obj versions =>
        simp only at h
        by_cases hunp : (lookupField versions "unpublished").isSome
        · simp only [hunp, if_true, FetchResult.err.injEq] at h
          exact h.symm
        · simp only [hunp, Bool.false_eq_true, if_false] at h
          cases hb : buildVersions pkgTitle (remainingVersions versions) with
          | ok versionSlice => rw [hb] at h; simp at h
          | err e2 =>
            rw [hb] at h
            simp only [FetchResult.err.injEq] at h
            subst h
            rcases buildVersions_err_shape hb with ⟨s, rfl⟩
            simp [isUnpublished] at hu
          | panicked => rw [hb] at h; simp at h

/-- The discovery-mode fan-in loop never records an unpublished
sentinel. -/
theorem taskErr_true_not_unpublished {o : TaskOut} {e : NpmError}
    (h : taskErr true o = some e) : isUnpublished e = false := by
  cases o with
  | pkgs l => simp [taskErr] at h
  | panicked => simp [taskErr] at h
  | err e0 =>
    simp only [taskErr, Bool.true_and] at h
    by_cases hu : isUnpublished e0
    · simp [hu] at h
    · simp only [hu, Bool.false_eq_true, if_false, Option.some.injEq] at h
      subst h
      exact Bool.eq_false_iff.mpr hu

/-- Unfolding a successful fan-in: the collected packages are the
concatenated success blocks and the collected errors the recorded ones,
in arrival order. -/
theorem fanIn_eq_ok {dropUnpublished : Bool} {outs : List TaskOut}
    {pkgs : List FeedsPackage} {errs : List NpmError}
    (h : fanIn dropUnpublished outs = .ok pkgs errs) :
    pkgs = (outs.map taskPkgs).flatten ∧ errs = outs.filterMap (taskErr dropUnpublished) := by
  by_cases hp : outs.any isPanicOut
  · simp [fanIn, hp] at h
  · simp only [fanIn, hp, Bool.false_eq_true, if_false, AggResult.ok.injEq] at h
    exact ⟨h.1.symm, h.2.symm⟩

/-- A fan-in panics exactly when one of its tasks panicked. -/
theorem fanIn_panicked_iff {dropUnpublished : Bool} {outs : List TaskOut} :
    fanIn dropUnpublished outs = .panicked ↔ ∃ o ∈ outs, isPanicOut o = true := by
  by_cases hp : outs.any isPanicOut
  · simp only [fanIn, hp, if_true, true_iff]
    exact List.any_eq_true.mp hp
  · simp only [fanIn, hp, Bool.false_eq_true, if_false]
    constructor
    · intro hcon; exact absurd hcon (by simp)
    · intro hex; exact absurd (List.any_eq_true.mpr hex) hp

/-- Every ReleaseEvent a discovery-mode task emits carries the name of
the task entry. -/
theorem allPackagesTask_names (env : String → PkgResponse) (x : String × Nat) :
    ∀ p ∈ taskPkgs (allPackagesTask env x), p.Name = x.1 := by
  cases hf : fetchPackage x.1 (env x.1) with
  | ok l =>
    by_cases hc : x.2 ≤ l.length
    · simp only [allPackagesTask, hf, hc, if_true, taskPkgs]
      intro p hp
      rcases List.mem_map.mp hp with ⟨q, hq, rfl⟩
      have := fetchPackage_titles hf q (List.mem_of_mem_take hq)
      simp [NewPackage, this]
    · simp [allPackagesTask, hf, hc, taskPkgs]
  | err e => simp [allPackagesTask, hf, taskPkgs]
  | panicked => simp [allPackagesTask, hf, taskPkgs]

/-- Every ReleaseEvent a watch-list task emits carries the watched
name. -/
theorem criticalTask_names (env : String → PkgResponse) (t : String) :
    ∀ p ∈ taskPkgs (criticalTask env t), p.Name = t := by
  cases hf : fetchPackage t (env t) with
  | ok l =>
    simp only [criticalTask, hf, taskPkgs]
    intro p hp
    rcases List.mem_map.mp hp with ⟨q, hq, rfl⟩
    have := fetchPackage_titles hf q hq
    simp [NewPackage, this]
  | err e => simp [criticalTask, hf, taskPkgs]
  | panicked => simp [criticalTask, hf, taskPkgs]

/-- In a list whose keys are pairwise distinct, filtering by the key of
a member keeps exactly that member. -/
theorem filter_key_eq_single {κ α : Type} [DecidableEq α] (key : κ → α) :
    ∀ {l : List κ} {x0 : κ}, (l.map key).Nodup → x0 ∈ l →
      (l.filter fun x => key x == key x0) = [x0]
  | [], x0, _, hx => absurd hx (by simp)
  | x :: rest, x0, hnd, hx => by
    rcases List.mem_cons.mp hx with rfl | hmem
    · simp only [List.filter_cons, beq_self_eq_true, if_true]
      have hkey : key x0 ∉ rest.map key := (List.nodup_cons.mp hnd).1
      have : (rest.filter fun x => key x == key x0) = [] := by
        rw [List.filter_eq_nil_iff]
        intro a ha hcon
        exact hkey (List.mem_map.mpr ⟨a, ha, (beq_iff_eq.mp hcon)⟩)
      rw [this]
    · have hkeyne : key x ≠ key x0 := by
        intro hcon
        exact (List.nodup_cons.mp hnd).1 (hcon ▸ List.mem_map.mpr ⟨x0, hmem, rfl⟩)
      simp only [List.filter_cons, beq_iff_eq, hkeyne, if_false]
      exact filter_key_eq_single key (List.nodup_cons.mp hnd).2 hmem

/-- Filtering the concatenated blocks by a name keeps exactly the blocks
of the entries with that key, provided each block is named after its
entry. -/
theorem flatten_filter_blocks {κ : Type} (key : κ → String) (g : κ → List FeedsPackage)
    (t : String) :
    ∀ order : List κ,
      (∀ x ∈ order, ∀ p ∈ g x, p.Name = key x) →
      (((order.map g).flatten.filter fun p => p.Name == t) =
        ((order.filter fun x => key x == t).map g).flatten)
  | [], _ => rfl
  | x :: rest, hnames => by
    have ih := flatten_filter_blocks key g t rest
      (fun y hy => hnames y (List.mem_cons_of_mem _ hy))
    have hx := hnames x (List.mem_cons_self _ _)
    by_cases hk : key x = t
    · have hfull : ((g x).filter fun p => p.Name == t) = g x := by
        rw [List.filter_eq_self]
        intro p hp
        simp [hx p hp, hk]
      simp only [List.map_cons, List.flatten_cons, List.filter_append, hfull,
        List.filter_cons, hk, beq_self_eq_true, if_true, ih]
    · have hnil : ((g x).filter fun p => p.Name == t) = [] := by
        rw [List.filter_eq_nil_iff]
        intro p hp hcon
        exact hk ((hx p hp) ▸ beq_iff_eq.mp hcon)
      simp only [List.map_cons, List.flatten_cons, List.filter_append, hnil,
        List.nil_append, List.filter_cons, beq_iff_eq, hk, if_false, ih]

/-- If exactly one entry has the designated key, the others map to none,
and the designated entry maps to some e, then the filterMap is [e]. -/
theorem filterMap_eq_singleton {κ η α : Type} [DecidableEq α] (key : κ → α)
    (f : κ → Option η) {e : η} :
    ∀ {l : List κ} {x0 : κ},
      (l.filter fun x => key x == key x0) = [x0] →
      (∀ x ∈ l, key x ≠ key x0 → f x = none) →
      f x0 = some e →
      l.filterMap f = [e]
  | [], x0, hsingle, _, _ => by simp at hsingle
  | x :: rest, x0, hsingle, hothers, hx0 => by
    by_cases hk : key x = key x0
    · simp only [List.filter_cons, beq_iff_eq, hk, if_true] at hsingle
      have hx : x = x0 := (List.cons.injEq _ _ _ _ ▸ hsingle).1
      have hrest : (rest.filter fun y => key y == key x0) = [] :=
        (List.cons.injEq _ _ _ _ ▸ hsingle).2
      have hnone : rest.filterMap f = [] := by
        rw [List.filterMap_eq_nil_iff]
        intro a ha
        apply hothers a (List.mem_cons_of_mem _ ha)
        intro hcon
        have : a ∈ rest.filter fun y => key y == key x0 :=
          List.mem_filter.mpr ⟨ha, beq_iff_eq.mpr hcon⟩
        rw [hrest] at this
        simp at this
      subst hx
      rw [List.filterMap_cons_some hx0, hnone]
    · simp only [List.filter_cons, beq_iff_eq, hk, if_false] at hsingle
      have hfx : f x = none := hothers x (List.mem_cons_self _ _) hk
      rw [List.filterMap_cons_none hfx]
      exact filterMap_eq_singleton key f hsingle
        (fun y hy => hothers y (List.mem_cons_of_mem _ hy)) hx0

/-- If the designated entry maps to some e and no other entry can map to
e, then e occurs exactly once in the filterMap. -/
theorem filter_filterMap_singleton {κ η α : Type} [DecidableEq α] [DecidableEq η]
    (key : κ → α) (f : κ → Option η) {e : η} :
    ∀ {l : List κ} {x0 : κ},
      (l.filter fun x => key x == key x0) = [x0] →
      (∀ x ∈ l, key x ≠ key x0 → f x ≠ some e) →
      f x0 = some e →
      ((l.filterMap f).filter fun y => y == e) = [e]
  | [], x0, hsingle, _, _ => by simp at hsingle
  | x :: rest, x0, hsingle, hothers, hx0 => by
    by_cases hk : key x = key x0
    · simp only [List.filter_cons, beq_iff_eq, hk, if_true] at hsingle
      have hx : x = x0 := (List.cons.injEq _ _ _ _ ▸ hsingle).1
      have hrest : (rest.filter fun y => key y == key x0) = [] :=
        (List.cons.injEq _ _ _ _ ▸ hsingle).2
      have hnone : ((rest.filterMap f).filter fun y => y == e) = [] := by
        rw [List.filter_eq_nil_iff]
        intro a ha hcon
        have hae : a = e := beq_iff_eq.mp hcon
        rcases List.mem_filterMap.mp ha with ⟨b, hb, hfb⟩
        have hbkey : key b ≠ key x0 := by
          intro hcon2
          have : b ∈ rest.filter fun y => key y == key x0 :=
            List.mem_filter.mpr ⟨hb, beq_iff_eq.mpr hcon2⟩
          rw [hrest] at this
          simp at this
        exact hothers b (List.mem_cons_of_mem _ hb) hbkey (hae ▸ hfb)
      subst hx
      rw [List.filterMap_cons_some hx0, List.filter_cons, if_pos (beq_self_eq_true e),
        hnone]
    · simp only [List.filter_cons, beq_iff_eq, hk, if_false] at hsingle
      have ih := filter_filterMap_singleton key f hsingle
        (fun y hy => hothers y (List.mem_cons_of_mem _ hy)) hx0
      cases hfx : f x with
      | none => rw [List.filterMap_cons_none hfx]; exact ih
      | some e2 =>
        have he2 : e2 ≠ e := by
          intro hcon
          exact hothers x (List.mem_cons_self _ _) hk (hcon ▸ hfx)
        rw [List.filterMap_cons_some hfx, List.filter_cons, if_neg (by simp [he2]),
          ih]

/-- Inserting an element into a list changes the set of entries holding
a given date only by the inserted element, and puts it in front of the
equal-dated ones: the core of stability. -/
theorem filter_orderedInsert_date {α : Type} (d : α → Int) (r : α → α → Prop) [DecidableRel r]
    (hr : ∀ a b, r a b ↔ d b ≤ d a) (t : Int) (x : α) :
    ∀ l : List α,
      ((l.orderedInsert r x).filter fun y => d y == t) =
        if d x = t then x :: (l.filter fun y => d y == t) else l.filter fun y => d y == t
  | [] => by
    by_cases hx : d x = t <;> simp [List.orderedInsert, List.filter_cons, beq_iff_eq, hx]
  | b :: l => by
    by_cases hrb : r x b
    · by_cases hx : d x = t <;>
        simp [List.orderedInsert, hrb, List.filter_cons, beq_iff_eq, hx]
    · have hgt : d x < d b := lt_of_not_le fun hle => hrb ((hr x b).mpr hle)
      have ih := filter_orderedInsert_date d r hr t x l
      by_cases hx : d x = t
      · have hb : ¬(d b = t) := by
          intro hcon
          rw [hx] at hgt
          exact absurd hcon (ne_of_gt hgt)
        simp [List.orderedInsert, hrb, List.filter_cons, beq_iff_eq, hb, ih, hx]
      · simp [List.orderedInsert, hrb, List.filter_cons, beq_iff_eq, ih, hx]

/-- Stability of the stable sort: the entries holding any given date
appear in the sorted list exactly as they arrived. -/
theorem filter_insertionSort_date {α : Type} (d : α → Int) (r : α → α → Prop) [DecidableRel r]
    (hr : ∀ a b, r a b ↔ d b ≤ d a) (t : Int) :
    ∀ l : List α,
      ((l.insertionSort r).filter fun y => d y == t) = l.filter fun y => d y == t
  | [] => rfl
  | x :: l => by
    have ih := filter_insertionSort_date d r hr t l
    simp only [List.insertionSort, filter_orderedInsert_date d r hr t x, ih,
      List.filter_cons, beq_iff_eq]

/-- The keys of the uniquePackages map are the distinct mentioned
titles. -/
theorem uniquePackages_keys (ev : List String) :
    (uniquePackages ev).map Prod.fst = ev.dedup := by
  simp [uniquePackages, List.map_map, Function.comp_def]

theorem uniquePackages_keys_nodup (ev : List String) :
    ((uniquePackages ev).map Prod.fst).Nodup := by
  rw [uniquePackages_keys]
  exact ev.nodup_dedup

/-- Membership in the uniquePackages map: one entry per mentioned title,
holding its mention count. -/
theorem mem_uniquePackages {ev : List String} {t : String} {k : Nat} :
    (t, k) ∈ uniquePackages ev ↔ t ∈ ev ∧ k = ev.count t := by
  simp only [uniquePackages, List.mem_map, List.mem_dedup, Prod.mk.injEq]
  constructor
  · rintro ⟨x, hx, rfl, rfl⟩
    exact ⟨hx, rfl⟩
  · rintro ⟨hx, rfl⟩
    exact ⟨t, hx, rfl, rfl⟩

/-- Filtering a successful discovery-mode output by a package name keeps
exactly the blocks of the arrival entries keyed by that name. -/
theorem fetchAllPackages_filter_name {env : String → PkgResponse} {events : List String}
    {arrival : List (String × Nat)} {pkgs : List FeedsPackage} {errs : List NpmError}
    {t : String}
    (hok : fetchAllPackages env (.ok events) arrival = .ok pkgs errs) :
    (pkgs.filter fun p => p.Name == t) =
      (((arrival.filter fun x => x.1 == t).map
        fun x => taskPkgs (allPackagesTask env x)).flatten) := by
  have h := (fanIn_eq_ok hok).1
  rw [h, List.map_map]
  exact flatten_filter_blocks Prod.fst (fun x => taskPkgs (allPackagesTask env x)) t arrival
    (fun x _ => allPackagesTask_names env x)

/-- Filtering a successful watch-list output by a package name keeps
exactly the blocks of the arrival entries with that name. -/
theorem fetchCriticalPackages_filter_name {env : String → PkgResponse}
    {arrival : List String} {pkgs : List FeedsPackage} {errs : List NpmError} {t : String}
    (hok : fetchCriticalPackages env arrival = .ok pkgs errs) :
    (pkgs.filter fun p => p.Name == t) =
      (((arrival.filter fun x => x == t).map
        fun x => taskPkgs (criticalTask env x)).flatten) := by
  have h := (fanIn_eq_ok hok).1
  rw [h, List.map_map]
  exact flatten_filter_blocks id (fun x => taskPkgs (criticalTask env x)) t arrival
    (fun x _ => criticalTask_names env x)

/-- A string whose character data decomposes around the data of sub
contains sub. -/
theorem strContains_of_data (s sub : String) (x y : List Char)
    (h : s.data = x ++ (sub.data ++ y)) : strContains s sub = true := by
  rw [strContains, h]
  exact strContainsAux_append sub.data x y

/-- In a successful discovery poll, a package P that was mentioned and
resolved contributes exactly its newest mention-count records. -/
theorem fetchAllPackages_name_block
    {env : String → PkgResponse} {events : List String} {arrival : List (String × Nat)}
    {P : String} {vs : List Package} {pkgs : List FeedsPackage} {errs : List NpmError}
    (horder : arrival.Perm (uniquePackages events))
    (hmem : P ∈ events)
    (hfetch : fetchPackage P (env P) = .ok vs)
    (hlen : events.count P ≤ vs.length)
    (hok : fetchAllPackages env (.ok events) arrival = .ok pkgs errs) :
    (pkgs.filter fun p => p.Name == P) =
      (vs.take (events.count P)).map fun p =>
        NewPackage p.CreatedDate p.Title p.Version FeedName := by
  have hnd : (arrival.map Prod.fst).Nodup :=
    (uniquePackages_keys_nodup events).perm (horder.map Prod.fst).symm
  have hx0 : (P, events.count P) ∈ arrival :=
    horder.mem_iff.mpr (mem_uniquePackages.mpr ⟨hmem, rfl⟩)
  have hsingle : (arrival.filter fun x => x.1 == P) = [(P, events.count P)] := by
    simpa using filter_key_eq_single Prod.fst hnd hx0
  have hfilter := fetchAllPackages_filter_name (t := P) hok
  rw [hsingle] at hfilter
  simp only [List.map_cons, List.map_nil, List.flatten_cons, List.flatten_nil,
    List.append_nil] at hfilter
  rw [hfilter]
  simp [allPackagesTask, hfetch, hlen, taskPkgs]

/-- In a successful discovery poll, a package P whose resolution failed
contributes no ReleaseEvents. -/
theorem fetchAllPackages_name_err
    {env : String → PkgResponse} {events : List String} {arrival : List (String × Nat)}
    {P : String} {eP : NpmError} {pkgs : List FeedsPackage} {errs : List NpmError}
    (hfetch : fetchPackage P (env P) = .err eP)
    (hok : fetchAllPackages env (.ok events) arrival = .ok pkgs errs) :
    (pkgs.filter fun p => p.Name == P) = [] := by
  rw [fetchAllPackages_filter_name hok, List.flatten_eq_nil_iff]
  intro l hl
  rcases List.mem_map.mp hl with ⟨x, hx, rfl⟩
  have hxP : x.1 = P := beq_iff_eq.mp (List.mem_filter.mp hx).2
  simp [allPackagesTask, hxP, hfetch, taskPkgs]

/-- In a successful watch-list poll over a duplicate-free list, a
watched package that resolved contributes exactly its full resolved
history. -/
theorem fetchCriticalPackages_name_block
    {env : String → PkgResponse} {packages arrival : List String}
    {t : String} {vs : List Package} {pkgs : List FeedsPackage} {errs : List NpmError}
    (hnd : packages.Nodup) (horder : arrival.Perm packages) (hmem : t ∈ packages)
    (hfetch : fetchPackage t (env t) = .ok vs)
    (hok : fetchCriticalPackages env arrival = .ok pkgs errs) :
    (pkgs.filter fun p => p.Name == t) =
      vs.map fun p => NewPackage p.CreatedDate p.Title p.Version FeedName := by
  have hndarr : arrival.Nodup := hnd.perm horder.symm
  have hx0 : t ∈ arrival := horder.mem_iff.mpr hmem
  have hsingle : (arrival.filter fun x => x == t) = [t] := by
    simpa using filter_key_eq_single id (by simpa using hndarr) hx0
  rw [fetchCriticalPackages_filter_name hok, hsingle]
  simp [criticalTask, hfetch, taskPkgs]

/-- In a successful watch-list poll, a package whose resolution failed
contributes no ReleaseEvents. -/
theorem fetchCriticalPackages_name_err
    {env : String → PkgResponse} {arrival : List String}
    {P : String} {eP : NpmError} {pkgs : List FeedsPackage} {errs : List NpmError}
    (hfetch : fetchPackage P (env P) = .err eP)
    (hok : fetchCriticalPackages env arrival = .ok pkgs errs) :
    (pkgs.filter fun p => p.Name == P) = [] := by
  rw [fetchCriticalPackages_filter_name hok, List.flatten_eq_nil_iff]
  intro l hl
  rcases List.mem_map.mp hl with ⟨x, hx, rfl⟩
  have hxP : x = P := beq_iff_eq.mp (List.mem_filter.mp hx).2
  simp [criticalTask, hxP, hfetch, taskPkgs]

/-- C1: in discovery mode, for every package name P mentioned k times in
one feed pull whose resolved history has at least k versions, a
successful poll contains exactly k ReleaseEvents for P, and they are
exactly the first k elements of the newest-first sorted version list
fetchPackage resolved (here k is the mention count of P in the pull, and
the arrival order is any permutation of the uniquePackages entries). -/
theorem claim_C1_discovery_count
    (env : String → PkgResponse) (events : List String) (arrival : List (String × Nat))
    (P : String) (vs : List Package) (pkgs : List FeedsPackage) (errs : List NpmError)
    (horder : arrival.Perm (uniquePackages events))
    (hmem : P ∈ events)
    (hfetch : fetchPackage P (env P) = .ok vs)
    (hlen : events.count P ≤ vs.length)
    (hok : fetchAllPackages env (.ok events) arrival = .ok pkgs errs) :
    (pkgs.filter fun p => p.Name == P) =
      ((vs.take (events.count P)).map fun p =>
        NewPackage p.CreatedDate p.Title p.Version FeedName) ∧
    (pkgs.filter fun p => p.Name == P).length = events.count P := by
  have hfilter := fetchAllPackages_name_block horder hmem hfetch hlen hok
  refine ⟨hfilter, ?_⟩
  rw [hfilter, List.length_map, List.length_take]
  exact Nat.min_eq_left hlen

/-- Witness for C1 at a concrete input: package A is mentioned twice in
the pull and resolves two versions, so the output holds exactly those
two newest versions of A. -/
theorem claim_C1_witness :
    ((([NewPackage 7 "A" "1.1" FeedName, NewPackage 5 "A" "1.0" FeedName] :
        List FeedsPackage).filter fun p => p.Name == "A") =
      (([{ Title := "A", CreatedDate := 7, Version := "1.1" },
         { Title := "A", CreatedDate := 5, Version := "1.0" }] : List Package).take
          (["A", "A"].count "A")).map fun p =>
        NewPackage p.CreatedDate p.Title p.Version FeedName) ∧
    (([NewPackage 7 "A" "1.1" FeedName, NewPackage 5 "A" "1.0" FeedName] :
        List FeedsPackage).filter fun p => p.Name == "A").length = ["A", "A"].count "A" :=
  claim_C1_discovery_count exEnv ["A", "A"] (uniquePackages ["A", "A"]) "A"
    [{ Title := "A", CreatedDate := 7, Version := "1.1" },
     { Title := "A", CreatedDate := 5, Version := "1.0" }]
    [NewPackage 7 "A" "1.1" FeedName, NewPackage 5 "A" "1.0" FeedName] []
    (List.Perm.refl _) (by decide) (by decide) (by decide) (by decide)

/-- C2: every poll call that returns a result has its output sorted in
non-increasing publish-timestamp order (the stable sort keeps equal
timestamps in arrival order, witnessed by the filter equation), every
returned event is strictly after the cutoff, and the cutoff filter is a
sublist-preserving filter of the sorted stream. -/
theorem claim_C2_sorted_cutoff
    (feed : Feed) (env : String → PkgResponse) (packageEvents : Except NpmError (List String))
    (arrivalAll : List (String × Nat)) (arrivalCritical : List String) (cutoff : Int)
    (out : List FeedsPackage) (es : List NpmError)
    (hres : Feed.Latest feed env packageEvents arrivalAll arrivalCritical cutoff =
      some (out, es))
    (hne : out ≠ []) :
    out.Pairwise (fun a b => b.CreatedDate ≤ a.CreatedDate) ∧
    (∀ p ∈ out, cutoff < p.CreatedDate) ∧
    ∃ pkgs, aggregate feed env packageEvents arrivalAll arrivalCritical = .ok pkgs es ∧
      out = ApplyCutoff (pkgs.insertionSort feedGE) cutoff ∧
      List.Sublist out (pkgs.insertionSort feedGE) ∧
      ∀ t : Int, ((pkgs.insertionSort feedGE).filter fun p => p.CreatedDate == t) =
        pkgs.filter fun p => p.CreatedDate == t := by
  cases hagg : aggregate feed env packageEvents arrivalAll arrivalCritical with
  | panicked => simp [Feed.Latest, hagg] at hres
  | ok pkgs errs =>
    simp only [Feed.Latest, hagg] at hres
    by_cases hlen : pkgs.length = 0
    · rw [if_pos hlen] at hres
      simp only [Option.some.injEq, Prod.mk.injEq] at hres
      exact absurd hres.1.symm hne
    · rw [if_neg hlen] at hres
      simp only [Option.some.injEq, Prod.mk.injEq] at hres
      obtain ⟨hout, hes⟩ := hres
      subst hes
      have hsorted : (pkgs.insertionSort feedGE).Pairwise feedGE :=
        List.sorted_insertionSort feedGE pkgs
      have hsub : List.Sublist out (pkgs.insertionSort feedGE) := by
        rw [← hout]
        exact List.filter_sublist _
      have hmemlt : ∀ p ∈ out, cutoff < p.CreatedDate := by
        intro p hp
        rw [← hout] at hp
        exact of_decide_eq_true (List.mem_filter.mp hp).2
      exact ⟨List.Pairwise.sublist hsub hsorted, hmemlt, pkgs, rfl, hout.symm, hsub,
        fun t => filter_insertionSort_date FeedsPackage.CreatedDate feedGE
          (fun _ _ => Iff.rfl) t pkgs⟩

/-- Witness for C2 at a concrete input: one watched package resolving
two versions, with cutoff 0, yields a sorted, cutoff-filtered output. -/
theorem claim_C2_witness :
    ([NewPackage 7 "A" "1.1" FeedName,
      NewPackage 5 "A" "1.0" FeedName].Pairwise fun a b => b.CreatedDate ≤ a.CreatedDate) ∧
    (∀ p ∈ [NewPackage 7 "A" "1.1" FeedName, NewPackage 5 "A" "1.0" FeedName],
      (0 : Int) < p.CreatedDate) ∧
    ∃ pkgs, aggregate { packages := some ["A"] } exEnv (.ok []) [] ["A"] = .ok pkgs [] ∧
      [NewPackage 7 "A" "1.1" FeedName, NewPackage 5 "A" "1.0" FeedName] =
        ApplyCutoff (pkgs.insertionSort feedGE) 0 ∧
      List.Sublist [NewPackage 7 "A" "1.1" FeedName, NewPackage 5 "A" "1.0" FeedName]
        (pkgs.insertionSort feedGE) ∧
      ∀ t : Int, ((pkgs.insertionSort feedGE).filter fun p => p.CreatedDate == t) =
        pkgs.filter fun p => p.CreatedDate == t :=
  claim_C2_sorted_cutoff { packages := some ["A"] } exEnv (.ok []) [] ["A"] 0
    [NewPackage 7 "A" "1.1" FeedName, NewPackage 5 "A" "1.0" FeedName] []
    (by decide) (by decide)

/-- C6: a poll in which zero releases were resolved returns the empty
release sequence together with the accumulated errors and a terminal
NoPackagesPolled appended to them: the terminal error is the last entry
and the previously accumulated errors are kept unchanged in front of
it. -/
theorem claim_C6_no_packages_polled
    (feed : Feed) (env : String → PkgResponse) (packageEvents : Except NpmError (List String))
    (arrivalAll : List (String × Nat)) (arrivalCritical : List String) (cutoff : Int)
    (errs : List NpmError)
    (hagg : aggregate feed env packageEvents arrivalAll arrivalCritical = .ok [] errs) :
    Feed.Latest feed env packageEvents arrivalAll arrivalCritical cutoff =
        some ([], errs ++ [NpmError.noPackagesPolled]) ∧
    (errs ++ [NpmError.noPackagesPolled]).getLast? = some NpmError.noPackagesPolled ∧
    (errs ++ [NpmError.noPackagesPolled]).take errs.length = errs := by
  refine ⟨?_, List.getLast?_concat _, List.take_left _ _⟩
  simp [Feed.Latest, hagg]

/-- Witness for C6 at a concrete input: the single watched package fails
with a not-found status, so the poll returns no releases, the transport
error, and a final NoPackagesPolled. -/
theorem claim_C6_witness :
    (Feed.Latest { packages := some ["B"] } exEnv (.ok []) [] ["B"] 0 =
      some ([], [NpmError.packagePoll "B" (.transport "404 not found")] ++
        [NpmError.noPackagesPolled])) ∧
    ([NpmError.packagePoll "B" (.transport "404 not found")] ++
      [NpmError.noPackagesPolled]).getLast? = some NpmError.noPackagesPolled ∧
    ([NpmError.packagePoll "B" (.transport "404 not found")] ++
      [NpmError.noPackagesPolled]).take
        [NpmError.packagePoll "B" (.transport "404 not found")].length =
      [NpmError.packagePoll "B" (.transport "404 not found")] :=
  claim_C6_no_packages_polled { packages := some ["B"] } exEnv (.ok []) [] ["B"] 0
    [NpmError.packagePoll "B" (.transport "404 not found")] (by decide)

/-- C10: the operating mode is selected by whether the watch-list
pointer is nil, not by emptiness: a poll with a non-nil empty watch list
dispatches no tasks (the arrival order of watch-list tasks is the empty
permutation of the empty list) and returns the empty release sequence
with exactly the single error NoPackagesPolled, for every registry
environment and every discovery-feed input. -/
theorem claim_C10_empty_watchlist
    (env : String → PkgResponse) (packageEvents : Except NpmError (List String))
    (arrivalAll : List (String × Nat)) (cutoff : Int) :
    Feed.Latest { packages := some [] } env packageEvents arrivalAll [] cutoff =
      some ([], [NpmError.noPackagesPolled]) :=
  rfl

/-- C3: an unpublish signal for package P yields zero ReleaseEvents for
P in either mode; in discovery mode the error collection carries no
unpublished sentinel at all, while in watch-list mode (with P watched
exactly once) the collection holds exactly one unpublished sentinel for
P, whose message contains the package name. -/
theorem claim_C3_unpublished :
    (∀ (env : String → PkgResponse) (events : List String) (arrival : List (String × Nat))
      (P : String) (pkgs : List FeedsPackage) (errs : List NpmError),
      fetchPackage P (env P) = .err (.unpublished P) →
      fetchAllPackages env (.ok events) arrival = .ok pkgs errs →
      (pkgs.filter fun p => p.Name == P) = [] ∧
      ∀ e ∈ errs, isUnpublished e = false) ∧
    (∀ (env : String → PkgResponse) (packages arrival : List String)
      (P : String) (pkgs : List FeedsPackage) (errs : List NpmError),
      arrival.Perm packages →
      packages.count P = 1 →
      fetchPackage P (env P) = .err (.unpublished P) →
      fetchCriticalPackages env arrival = .ok pkgs errs →
      (pkgs.filter fun p => p.Name == P) = [] ∧
      (errs.filter fun e => e == NpmError.unpublished P) = [NpmError.unpublished P] ∧
      strContains (errMessage (.unpublished P)) P = true) := by
  constructor
  · intro env events arrival P pkgs errs hun hok
    refine ⟨fetchAllPackages_name_err hun hok, ?_⟩
    intro e he
    have herrs := (fanIn_eq_ok hok).2
    rw [herrs] at he
    rcases List.mem_filterMap.mp he with ⟨o, _, ho⟩
    exact taskErr_true_not_unpublished ho
  · intro env packages arrival P pkgs errs horder hcount hun hok
    refine ⟨fetchCriticalPackages_name_err hun hok, ?_, ?_⟩
    · have herrs := (fanIn_eq_ok hok).2
      rw [herrs, List.filterMap_map] at *
      have hsingle : (arrival.filter fun x => x == P) = [P] := by
        have hc : arrival.count P = 1 := (horder.count_eq P).trans hcount
        rw [show (fun x => x == P) = (· == P) from rfl, List.filter_beq, hc]
        rfl
      refine filter_filterMap_singleton id (fun x => taskErr false (criticalTask env x))
        (by simpa using hsingle) ?_ ?_
      · intro x _ hxP hcon
        simp only [id_eq] at hxP
        cases hfx : fetchPackage x (env x) with
        | ok l => simp only [criticalTask, hfx] at hcon; simp [taskErr] at hcon
        | panicked => simp only [criticalTask, hfx] at hcon; simp [taskErr] at hcon
        | err e0 =>
          simp only [criticalTask, hfx] at hcon
          simp only [taskErr, Bool.false_and, Bool.false_eq_true, if_false,
            Option.some.injEq] at hcon
          by_cases hu : isUnpublished e0 = true
          · rw [if_pos hu] at hcon
            have := fetchPackage_err_isUnpublished hfx hu
            rw [this] at hcon
            exact hxP (NpmError.unpublished.injEq _ _ ▸ hcon)
          · rw [if_neg hu] at hcon
            simp at hcon
      · simp [criticalTask, hun, taskErr, isUnpublished]
    · show strContains (P ++ " package is currently unpublished") P = true
      exact strContains_of_data _ _ [] " package is currently unpublished".data
        (by simp [String.data_append])

/-- Witness for C3 at a concrete input: package Q is unpublished; the
discovery poll over a pull mentioning only Q returns nothing with no
errors, and the watch-list poll over [Q] returns nothing with exactly
the unpublished error for Q. -/
theorem claim_C3_witness :
    ((([] : List FeedsPackage).filter fun p => p.Name == "Q") = [] ∧
      (∀ e ∈ ([] : List NpmError), isUnpublished e = false)) ∧
    ((([] : List FeedsPackage).filter fun p => p.Name == "Q") = [] ∧
      (([NpmError.unpublished "Q"].filter fun e => e == NpmError.unpublished "Q") =
        [NpmError.unpublished "Q"]) ∧
      strContains (errMessage (.unpublished "Q")) "Q" = true) :=
  ⟨claim_C3_unpublished.1 exEnv ["Q"] [("Q", 1)] "Q" [] [] (by decide) (by decide),
   claim_C3_unpublished.2 exEnv ["Q"] ["Q"] "Q" [] [NpmError.unpublished "Q"]
     (List.Perm.refl _) (by decide) (by decide) (by decide)⟩

/-- The message of a PackagePollError wrapping a transport failure
contains both the package name and the underlying cause. -/
theorem packagePoll_transport_contains (Q cause : String) :
    strContains (errMessage (.packagePoll Q (.transport cause))) Q = true ∧
    strContains (errMessage (.packagePoll Q (.transport cause))) cause = true := by
  constructor
  · exact strContains_of_data _ _ "error when polling for package ".data
      (": ".data ++ "failed to fetch npm package version data: ".data ++ cause.data)
      (by simp [errMessage, String.data_append, List.append_assoc])
  · exact strContains_of_data _ _
      ("error when polling for package ".data ++ Q.data ++ ": ".data ++
        "failed to fetch npm package version data: ".data) []
      (by simp [errMessage, String.data_append, List.append_assoc])

/-- C4: when the resolution of exactly one package Q fails with a
transport error and every other dispatched package resolves (with
enough versions in discovery mode), the poll returns every sibling
package's releases unchanged together with exactly one PackagePollError
whose message contains the failing package name and the underlying
cause — in both operating modes. -/
theorem claim_C4_partial_failure :
    (∀ (env : String → PkgResponse) (events : List String) (arrival : List (String × Nat))
      (Q cause : String) (pkgs : List FeedsPackage) (errs : List NpmError),
      arrival.Perm (uniquePackages events) →
      Q ∈ events →
      env Q = .transportErr cause →
      (∀ t ∈ events, t ≠ Q → isOkFetch (fetchPackage t (env t)) = true ∧
        events.count t ≤ (okList (fetchPackage t (env t))).length) →
      fetchAllPackages env (.ok events) arrival = .ok pkgs errs →
      errs = [.packagePoll Q (.transport cause)] ∧
      strContains (errMessage (.packagePoll Q (.transport cause))) Q = true ∧
      strContains (errMessage (.packagePoll Q (.transport cause))) cause = true ∧
      ∀ t ∈ events, t ≠ Q →
        (pkgs.filter fun p => p.Name == t) =
          ((okList (fetchPackage t (env t))).take (events.count t)).map fun p =>
            NewPackage p.CreatedDate p.Title p.Version FeedName) ∧
    (∀ (env : String → PkgResponse) (packages arrival : List String)
      (Q cause : String) (pkgs : List FeedsPackage) (errs : List NpmError),
      packages.Nodup →
      arrival.Perm packages →
      Q ∈ packages →
      env Q = .transportErr cause →
      (∀ t ∈ packages, t ≠ Q → isOkFetch (fetchPackage t (env t)) = true) →
      fetchCriticalPackages env arrival = .ok pkgs errs →
      errs = [.packagePoll Q (.transport cause)] ∧
      strContains (errMessage (.packagePoll Q (.transport cause))) Q = true ∧
      strContains (errMessage (.packagePoll Q (.transport cause))) cause = true ∧
      ∀ t ∈ packages, t ≠ Q →
        (pkgs.filter fun p => p.Name == t) =
          (okList (fetchPackage t (env t))).map fun p =>
            NewPackage p.CreatedDate p.Title p.Version FeedName) := by
  constructor
  · intro env events arrival Q cause pkgs errs horder hmem henv hsucc hok
    have hfQ : fetchPackage Q (env Q) = .err (.transport cause) := by
      rw [henv]
      rfl
    have hnd : (arrival.map Prod.fst).Nodup :=
      (uniquePackages_keys_nodup events).perm (horder.map Prod.fst).symm
    have hx0 : (Q, events.count Q) ∈ arrival :=
      horder.mem_iff.mpr (mem_uniquePackages.mpr ⟨hmem, rfl⟩)
    have herr : errs = [.packagePoll Q (.transport cause)] := by
      have herrs := (fanIn_eq_ok hok).2
      rw [herrs, List.filterMap_map]
      refine filterMap_eq_singleton Prod.fst
        (fun x => taskErr true (allPackagesTask env x))
        (filter_key_eq_single Prod.fst hnd hx0) ?_ ?_
      · intro x hx hxQ
        obtain ⟨t, k⟩ := x
        simp only at hxQ
        have hxu := horder.mem_iff.mp hx
        obtain ⟨htev, hk⟩ := mem_uniquePackages.mp hxu
        subst hk
        obtain ⟨hokf, hlenf⟩ := hsucc t htev hxQ
        cases hfx : fetchPackage t (env t) with
        | ok l =>
          rw [hfx] at hlenf
          simp only [okList] at hlenf
          simp [allPackagesTask, hfx, hlenf, taskErr]
        | err e0 => rw [hfx] at hokf; simp [isOkFetch] at hokf
        | panicked => rw [hfx] at hokf; simp [isOkFetch] at hokf
      · simp [allPackagesTask, hfQ, taskErr, isUnpublished]
    refine ⟨herr, (packagePoll_transport_contains Q cause).1,
      (packagePoll_transport_contains Q cause).2, ?_⟩
    intro t htev htQ
    obtain ⟨hokf, hlenf⟩ := hsucc t htev htQ
    cases hfx : fetchPackage t (env t) with
    | ok l =>
      rw [hfx] at hlenf
      simp only [okList] at hlenf
      simp only [okList]
      exact fetchAllPackages_name_block horder htev hfx hlenf hok
    | err e0 => rw [hfx] at hokf; simp [isOkFetch] at hokf
    | panicked => rw [hfx] at hokf; simp [isOkFetch] at hokf
  · intro env packages arrival Q cause pkgs errs hnd horder hmem henv hsucc hok
    have hfQ : fetchPackage Q (env Q) = .err (.transport cause) := by
      rw [henv]
      rfl
    have hndarr : arrival.Nodup := hnd.perm horder.symm
    have hx0 : Q ∈ arrival := horder.mem_iff.mpr hmem
    have herr : errs = [.packagePoll Q (.transport cause)] := by
      have herrs := (fanIn_eq_ok hok).2
      rw [herrs, List.filterMap_map]
      refine filterMap_eq_singleton id
        (fun x => taskErr false (criticalTask env x))
        (filter_key_eq_single id (by simpa using hndarr) hx0) ?_ ?_
      · intro x hx hxQ
        simp only [id_eq] at hxQ
        have hxp := horder.mem_iff.mp hx
        have hokf := hsucc x hxp hxQ
        cases hfx : fetchPackage x (env x) with
        | ok l => simp [criticalTask, hfx, taskErr]
        | err e0 => rw [hfx] at hokf; simp [isOkFetch] at hokf
        | panicked => rw [hfx] at hokf; simp [isOkFetch] at hokf
      · simp [criticalTask, hfQ, taskErr, isUnpublished]
    refine ⟨herr, (packagePoll_transport_contains Q cause).1,
      (packagePoll_transport_contains Q cause).2, ?_⟩
    intro t htp htQ
    have hokf := hsucc t htp htQ
    cases hfx : fetchPackage t (env t) with
    | ok l =>
      simp only [okList]
      exact fetchCriticalPackages_name_block hnd horder htp hfx hok
    | err e0 => rw [hfx] at hokf; simp [isOkFetch] at hokf
    | panicked => rw [hfx] at hokf; simp [isOkFetch] at hokf

/-- Witness for C4 at a concrete input: packages A and B, where B fails
with a not-found status; in both modes the poll keeps the releases of A
and reports exactly one wrapped transport error for B. -/
theorem claim_C4_witness :
    (([NpmError.packagePoll "B" (.transport "404 not found")] =
        [NpmError.packagePoll "B" (.transport "404 not found")]) ∧
      strContains (errMessage (.packagePoll "B" (.transport "404 not found"))) "B" = true ∧
      strContains (errMessage (.packagePoll "B" (.transport "404 not found")))
        "404 not found" = true ∧
      ∀ t ∈ ["A", "B"], t ≠ "B" →
        (([NewPackage 7 "A" "1.1" FeedName] : List FeedsPackage).filter
          fun p => p.Name == t) =
          ((okList (fetchPackage t (exEnv t))).take (["A", "B"].count t)).map fun p =>
            NewPackage p.CreatedDate p.Title p.Version FeedName) ∧
    (([NpmError.packagePoll "B" (.transport "404 not found")] =
        [NpmError.packagePoll "B" (.transport "404 not found")]) ∧
      strContains (errMessage (.packagePoll "B" (.transport "404 not found"))) "B" = true ∧
      strContains (errMessage (.packagePoll "B" (.transport "404 not found")))
        "404 not found" = true ∧
      ∀ t ∈ ["A", "B"], t ≠ "B" →
        (([NewPackage 7 "A" "1.1" FeedName, NewPackage 5 "A" "1.0" FeedName] :
          List FeedsPackage).filter fun p => p.Name == t) =
          (okList (fetchPackage t (exEnv t))).map fun p =>
            NewPackage p.CreatedDate p.Title p.Version FeedName) :=
  ⟨claim_C4_partial_failure.1 exEnv ["A", "B"] (uniquePackages ["A", "B"])
      "B" "404 not found" [NewPackage 7 "A" "1.1" FeedName]
      [NpmError.packagePoll "B" (.transport "404 not found")]
      (List.Perm.refl _) (by decide) rfl (by decide) (by decide),
   claim_C4_partial_failure.2 exEnv ["A", "B"] ["A", "B"]
      "B" "404 not found" [NewPackage 7 "A" "1.1" FeedName, NewPackage 5 "A" "1.0" FeedName]
      [NpmError.packagePoll "B" (.transport "404 not found")]
      (by decide) (List.Perm.refl _) (by decide) rfl (by decide) (by decide)⟩

/-- C7: the version resolver, on a parseable document, fails with the
time-not-found decode error when the timestamp map is missing entirely;
otherwise (no unpublish marker, all remaining values parseable
timestamp strings) it excludes the created and modified bookkeeping
keys and returns exactly the remaining (version, timestamp) records,
stable-sorted newest first: the result is the stable sort of the
remaining records, sorted non-increasingly, a permutation of them, and
with entries of equal timestamp kept in encounter order. -/
theorem claim_C7_resolver :
    (∀ (pkgTitle : String) (fields : List (String × JSONVal)),
      lookupField fields "time" = none →
      fetchPackage pkgTitle (.doc fields) = .err (.timeNotFound pkgTitle)) ∧
    (∀ (pkgTitle : String) (fields versions : List (String × JSONVal)),
      lookupField fields "time" = some (.obj versions) →
      lookupField versions "unpublished" = none →
      (∀ kv ∈ remainingVersions versions, strParses kv.2 = true) →
      fetchPackage pkgTitle (.doc fields) =
        .ok (((remainingVersions versions).map (recordOf pkgTitle)).insertionSort pkgGE) ∧
      ((((remainingVersions versions).map (recordOf pkgTitle)).insertionSort pkgGE).Pairwise
        fun a b => b.CreatedDate ≤ a.CreatedDate) ∧
      (((remainingVersions versions).map (recordOf pkgTitle)).insertionSort pkgGE).Perm
        ((remainingVersions versions).map (recordOf pkgTitle)) ∧
      ∀ t : Int,
        ((((remainingVersions versions).map (recordOf pkgTitle)).insertionSort pkgGE).filter
          fun p => p.CreatedDate == t) =
          ((remainingVersions versions).map (recordOf pkgTitle)).filter
            fun p => p.CreatedDate == t) := by
  constructor
  · intro pkgTitle fields hl
    simp [fetchPackage, hl]
  · intro pkgTitle fields versions hl hu hvals
    have hbuild : buildVersions pkgTitle (remainingVersions versions) =
        .ok ((remainingVersions versions).map (recordOf pkgTitle)) :=
      buildVersions_ok_of_parses hvals
    refine ⟨?_, List.sorted_insertionSort pkgGE _, List.perm_insertionSort pkgGE _,
      fun t => filter_insertionSort_date Package.CreatedDate pkgGE (fun _ _ => Iff.rfl) t _⟩
    simp [fetchPackage, hl, hu, hbuild]

/-- Witness for C7 at concrete inputs: a document without a time map
fails with the decode error, and the two-version document resolves to
its records sorted newest first. -/
theorem claim_C7_witness :
    fetchPackage "X" (.doc []) = .err (.timeNotFound "X") ∧
    (fetchPackage "pkg" (.doc exFieldsTwo) =
        .ok (((remainingVersions exTimeTwo).map (recordOf "pkg")).insertionSort pkgGE) ∧
      ((((remainingVersions exTimeTwo).map (recordOf "pkg")).insertionSort pkgGE).Pairwise
        fun a b => b.CreatedDate ≤ a.CreatedDate) ∧
      (((remainingVersions exTimeTwo).map (recordOf "pkg")).insertionSort pkgGE).Perm
        ((remainingVersions exTimeTwo).map (recordOf "pkg")) ∧
      ∀ t : Int,
        ((((remainingVersions exTimeTwo).map (recordOf "pkg")).insertionSort pkgGE).filter
          fun p => p.CreatedDate == t) =
          ((remainingVersions exTimeTwo).map (recordOf "pkg")).filter
            fun p => p.CreatedDate == t) :=
  ⟨claim_C7_resolver.1 "X" [] rfl,
   claim_C7_resolver.2 "pkg" exFieldsTwo exTimeTwo rfl rfl (by decide)⟩

/-- C8: with the per-entry type assertions already safe, a discovery
poll panics exactly when some mentioned package resolves fewer versions
than its mention count: the out-of-range slice pkgs[:count] makes the
aggregation total only under the precondition that every resolved
mention count is bounded by the resolved version count. -/
theorem claim_C8_count_overflow
    (env : String → PkgResponse) (events : List String) (arrival : List (String × Nat))
    (horder : arrival.Perm (uniquePackages events))
    (hnp : ∀ x ∈ arrival, fetchPackage x.1 (env x.1) ≠ .panicked) :
    fetchAllPackages env (.ok events) arrival = .panicked ↔
      ∃ (t : String) (l : List Package), t ∈ events ∧
        fetchPackage t (env t) = .ok l ∧ l.length < events.count t := by
  rw [show fetchAllPackages env (.ok events) arrival =
      fanIn true (arrival.map (allPackagesTask env)) from rfl, fanIn_panicked_iff]
  constructor
  · rintro ⟨o, ho, hop⟩
    rcases List.mem_map.mp ho with ⟨x, hx, rfl⟩
    obtain ⟨t, k⟩ := x
    have hux := horder.mem_iff.mp hx
    obtain ⟨htev, hk⟩ := mem_uniquePackages.mp hux
    subst hk
    cases hfx : fetchPackage t (env t) with
    | ok l =>
      by_cases hlen : events.count t ≤ l.length
      · simp [allPackagesTask, hfx, hlen, isPanicOut] at hop
      · exact ⟨t, l, htev, hfx, Nat.lt_of_not_le hlen⟩
    | err e => simp [allPackagesTask, hfx, isPanicOut] at hop
    | panicked => exact absurd hfx (hnp (t, events.count t) hx)
  · rintro ⟨t, l, htev, hfx, hlen⟩
    refine ⟨allPackagesTask env (t, events.count t), List.mem_map_of_mem _ ?_, ?_⟩
    · exact horder.mem_iff.mpr (mem_uniquePackages.mpr ⟨htev, rfl⟩)
    · have hnle : ¬(events.count t ≤ l.length) := Nat.not_le.mpr hlen
      simp [allPackagesTask, hfx, hnle, isPanicOut]

/-- Witness for C8 at a concrete input: package A is mentioned three
times but resolves only two versions, so the discovery aggregation
panics. -/
theorem claim_C8_witness :
    (∀ x ∈ uniquePackages ["A", "A", "A"], fetchPackage x.1 (exEnv x.1) ≠ .panicked) ∧
    fetchAllPackages exEnv (.ok ["A", "A", "A"]) (uniquePackages ["A", "A", "A"]) =
      .panicked :=
  ⟨by decide,
   (claim_C8_count_overflow exEnv ["A", "A", "A"] (uniquePackages ["A", "A", "A"])
      (List.Perm.refl _) (by decide)).mpr
    ⟨"A", [{ Title := "A", CreatedDate := 7, Version := "1.1" },
           { Title := "A", CreatedDate := 5, Version := "1.0" }],
      by decide, by decide, by decide⟩⟩

/-- C9: the version resolver is total (never hits the unchecked type
assertion) whenever every non-bookkeeping value of the time map is a
string or the map carries an unpublish marker; and on a document whose
time map holds a non-string value it panics instead of returning a
decode error. -/
theorem claim_C9_nonstring_panics :
    (∀ (pkgTitle : String) (resp : PkgResponse),
      strTimeVals resp = true → fetchPackage pkgTitle resp ≠ .panicked) ∧
    fetchPackage "A" exDocBadVal = .panicked := by
  constructor
  · intro pkgTitle resp hval
    cases resp with
    | transportErr cause => simp [fetchPackage]
    | badJSON detail => simp [fetchPackage]
    | doc fields =>
      simp only [fetchPackage]
      cases hl : lookupField fields "time" with
      | none => simp
      | some v =>
        cases v with
        | str s => simp
        | num n => simp
        | obj versions =>
          simp only [strTimeVals, hl] at hval
          by_cases hu : (lookupField versions "unpublished").isSome
          · simp [hu]
          · simp only [hu, Bool.false_or] at hval
            simp only [hu, Bool.false_eq_true, if_false]
            cases hb : buildVersions pkgTitle (remainingVersions versions) with
            | ok l => simp
            | err e => simp
            | panicked =>
              exact absurd hb (buildVersions_ne_panicked (List.all_eq_true.mp hval))
  · rfl

/-- Witness for C9 at a concrete input: every value of the one-version
document is a string, so the resolver does not panic on it. -/
theorem claim_C9_witness :
    strTimeVals exDocOne = true ∧ fetchPackage "Z" exDocOne ≠ .panicked :=
  ⟨by decide, claim_C9_nonstring_panics.1 "Z" exDocOne (by decide)⟩

/-- The versions a successful build-version loop returns are the keys of
the processed entries, in order. -/
theorem buildVersions_versions {pkgTitle : String} :
    ∀ {l : List (String × JSONVal)} {vs : List Package},
      buildVersions pkgTitle l = .ok vs → vs.map Package.Version = l.map Prod.fst
  | [], vs, h => by
    simp only [buildVersions, FetchResult.ok.injEq] at h
    subst h
    simp
  | (version, .str ts) :: rest, vs, h => by
    simp only [buildVersions] at h
    cases hp : timeParse ts with
    | none => rw [hp] at h; exact absurd h (by simp)
    | some date =>
      rw [hp] at h
      cases hr : buildVersions pkgTitle rest with
      | ok l2 =>
        rw [hr] at h
        simp only [FetchResult.ok.injEq] at h
        subst h
        simp only [List.map_cons]
        rw [buildVersions_versions hr]
      | err e => rw [hr] at h; exact absurd h (by simp)
      | panicked => rw [hr] at h; exact absurd h (by simp)
  | (version, .num n) :: rest, vs, h => by simp [buildVersions] at h
  | (version, .obj fs) :: rest, vs, h => by simp [buildVersions] at h

/-- On a document whose time map has pairwise distinct keys, the
records a successful fetchPackage returns carry pairwise distinct
versions. -/
theorem fetchPackage_version_nodup {pkgTitle : String} {resp : PkgResponse}
    {l : List Package}
    (hwf : wfTimeKeys resp = true) (h : fetchPackage pkgTitle resp = .ok l) :
    (l.map Package.Version).Nodup := by
  cases resp with
  | transportErr cause => simp [fetchPackage] at h
  | badJSON detail => simp [fetchPackage] at h
  | doc jsonMap =>
    simp only [fetchPackage] at h
    cases hl : lookupField jsonMap "time" with
    | none => rw [hl] at h; simp at h
    | some v =>
      rw [hl] at h
      cases v with
      | str s => simp at h
      | num n => simp at h
      | obj versions =>
        simp only [wfTimeKeys, hl, decide_eq_true_eq] at hwf
        simp only at h
        by_cases hu : (lookupField versions "unpublished").isSome
        · simp [hu] at h
        · simp only [hu, Bool.false_eq_true, if_false] at h
          cases hb : buildVersions pkgTitle (remainingVersions versions) with
          | ok versionSlice =>
            rw [hb] at h
            simp only [FetchResult.ok.injEq] at h
            subst h
            have hperm : List.Perm
                ((List.insertionSort pkgGE versionSlice).map Package.Version)
                (versionSlice.map Package.Version) :=
              (List.perm_insertionSort pkgGE versionSlice).map Package.Version
            have hrem : (versionSlice.map Package.Version).Nodup := by
              rw [buildVersions_versions hb]
              exact hwf.sublist ((List.filter_sublist versions).map Prod.fst)
            exact hrem.perm hperm.symm
          | err e => rw [hb] at h; simp at h
          | panicked => rw [hb] at h; simp at h

/-- Versions within one discovery-mode task block are pairwise
distinct, given distinct time-map keys for its package. -/
theorem allPackagesTask_version_nodup {env : String → PkgResponse} {x : String × Nat}
    (hwf : wfTimeKeys (env x.1) = true) :
    ((taskPkgs (allPackagesTask env x)).map FeedsPackage.Version).Nodup := by
  cases hfx : fetchPackage x.1 (env x.1) with
  | ok l =>
    have hnd := fetchPackage_version_nodup hwf hfx
    by_cases hc : x.2 ≤ l.length
    · simp only [allPackagesTask, hfx, hc, if_true, taskPkgs, List.map_map]
      have heq : (FeedsPackage.Version ∘ fun p =>
          NewPackage p.CreatedDate p.Title p.Version FeedName) = Package.Version := rfl
      rw [heq, List.map_take]
      exact hnd.sublist (List.take_sublist _ _)
    · simp [allPackagesTask, hfx, hc, taskPkgs]
  | err e => simp [allPackagesTask, hfx, taskPkgs]
  | panicked => simp [allPackagesTask, hfx, taskPkgs]

/-- Versions within one watch-list task block are pairwise distinct,
given distinct time-map keys for its package. -/
theorem criticalTask_version_nodup {env : String → PkgResponse} {t : String}
    (hwf : wfTimeKeys (env t) = true) :
    ((taskPkgs (criticalTask env t)).map FeedsPackage.Version).Nodup := by
  cases hfx : fetchPackage t (env t) with
  | ok l =>
    have hnd := fetchPackage_version_nodup hwf hfx
    simp only [criticalTask, hfx, taskPkgs, List.map_map]
    have heq : (FeedsPackage.Version ∘ fun p =>
        NewPackage p.CreatedDate p.Title p.Version FeedName) = Package.Version := rfl
    rw [heq]
    exact hnd
  | err e => simp [criticalTask, hfx, taskPkgs]
  | panicked => simp [criticalTask, hfx, taskPkgs]

/-- The name-and-version uniqueness of a fan-in output: if the blocks
are keyed by pairwise distinct names and each block has pairwise
distinct versions, no two collected events share both name and
version. -/
theorem fanIn_pairwise_name_version {κ : Type} (key : κ → String) (task : κ → TaskOut)
    (arrival : List κ) {d : Bool} {pkgs : List FeedsPackage} {errs : List NpmError}
    (hnames : ∀ x ∈ arrival, ∀ p ∈ taskPkgs (task x), p.Name = key x)
    (hvers : ∀ x ∈ arrival, ((taskPkgs (task x)).map FeedsPackage.Version).Nodup)
    (hkeys : (arrival.map key).Nodup)
    (hok : fanIn d (arrival.map task) = .ok pkgs errs) :
    pkgs.Pairwise fun a b => a.Name ≠ b.Name ∨ a.Version ≠ b.Version := by
  rw [(fanIn_eq_ok hok).1, List.map_map, List.pairwise_flatten]
  constructor
  · intro l hl
    rcases List.mem_map.mp hl with ⟨x, hx, rfl⟩
    have hv : ((taskPkgs (task x)).map FeedsPackage.Version).Pairwise (· ≠ ·) := hvers x hx
    exact (List.pairwise_map.mp hv).imp fun h => Or.inr h
  · rw [List.pairwise_map]
    have hp : arrival.Pairwise fun x y => key x ≠ key y := List.pairwise_map.mp hkeys
    refine hp.imp_of_mem ?_
    intro x y hx hy hne
    intro a ha b hb
    left
    rw [hnames x hx a ha, hnames y hy b hb]
    exact hne

/-- C5 counterexample: a watch list holding the same name twice makes
the poll return the same (name, version) ReleaseEvent twice, so the
claimed uniqueness invariant fails on duplicate watch lists. -/
theorem claim_C5_counterexample :
    Feed.Latest { packages := some ["A", "A"] } exEnv (.ok []) [] ["A", "A"] 0 =
      some ([NewPackage 7 "A" "1.1" FeedName, NewPackage 7 "A" "1.1" FeedName,
        NewPackage 5 "A" "1.0" FeedName, NewPackage 5 "A" "1.0" FeedName], []) ∧
    ¬ ([NewPackage 7 "A" "1.1" FeedName, NewPackage 7 "A" "1.1" FeedName,
        NewPackage 5 "A" "1.0" FeedName, NewPackage 5 "A" "1.0" FeedName].Pairwise
        fun a b => a.Name ≠ b.Name ∨ a.Version ≠ b.Version) := by
  constructor
  · rfl
  · decide

/-- C5 amended: no two ReleaseEvents of one poll output share both name
and version, provided the registry documents have duplicate-free time
maps and — in watch-list mode — the configured list has no duplicate
names; discovery mode needs no list condition because tasks are keyed
by distinct names. The third conjunct carries the invariant through the
sorting and cutoff stage to the final output. -/
theorem claim_C5_amended :
    (∀ (env : String → PkgResponse) (events : List String) (arrival : List (String × Nat))
      (pkgs : List FeedsPackage) (errs : List NpmError),
      (∀ x ∈ arrival, wfTimeKeys (env x.1) = true) →
      arrival.Perm (uniquePackages events) →
      fetchAllPackages env (.ok events) arrival = .ok pkgs errs →
      pkgs.Pairwise fun a b => a.Name ≠ b.Name ∨ a.Version ≠ b.Version) ∧
    (∀ (env : String → PkgResponse) (packages arrival : List String)
      (pkgs : List FeedsPackage) (errs : List NpmError),
      packages.Nodup →
      arrival.Perm packages →
      (∀ t ∈ arrival, wfTimeKeys (env t) = true) →
      fetchCriticalPackages env arrival = .ok pkgs errs →
      pkgs.Pairwise fun a b => a.Name ≠ b.Name ∨ a.Version ≠ b.Version) ∧
    (∀ (feed : Feed) (env : String → PkgResponse)
      (packageEvents : Except NpmError (List String))
      (arrivalAll : List (String × Nat)) (arrivalCritical : List String) (cutoff : Int)
      (pkgs out : List FeedsPackage) (errs es : List NpmError),
      aggregate feed env packageEvents arrivalAll arrivalCritical = .ok pkgs errs →
      pkgs.Pairwise (fun a b => a.Name ≠ b.Name ∨ a.Version ≠ b.Version) →
      Feed.Latest feed env packageEvents arrivalAll arrivalCritical cutoff =
        some (out, es) →
      out.Pairwise fun a b => a.Name ≠ b.Name ∨ a.Version ≠ b.Version) := by
  refine ⟨?_, ?_, ?_⟩
  · intro env events arrival pkgs errs hwf horder hok
    cases hfd : (Except.ok events : Except NpmError (List String)) with
    | error e => simp at hfd
    | ok ev2 =>
      exact fanIn_pairwise_name_version Prod.fst (allPackagesTask env) arrival
        (fun x _ => allPackagesTask_names env x)
        (fun x hx => allPackagesTask_version_nodup (hwf x hx))
        ((uniquePackages_keys_nodup events).perm (horder.map Prod.fst).symm)
        hok
  · intro env packages arrival pkgs errs hnd horder hwf hok
    exact fanIn_pairwise_name_version id (criticalTask env) arrival
      (fun x _ => criticalTask_names env x)
      (fun x hx => criticalTask_version_nodup (hwf x hx))
      (by simpa using hnd.perm horder.symm)
      hok
  · intro feed env packageEvents arrivalAll arrivalCritical cutoff pkgs out errs es
      hagg hpair hres
    simp only [Feed.Latest, hagg] at hres
    by_cases hlen : pkgs.length = 0
    · rw [if_pos hlen] at hres
      simp only [Option.some.injEq, Prod.mk.injEq] at hres
      rw [← hres.1]
      exact List.Pairwise.nil
    · rw [if_neg hlen] at hres
      simp only [Option.some.injEq, Prod.mk.injEq] at hres
      rw [← hres.1]
      have hsym : ∀ {a b : FeedsPackage},
          (a.Name ≠ b.Name ∨ a.Version ≠ b.Version) →
          (b.Name ≠ a.Name ∨ b.Version ≠ a.Version) := by
        rintro a b (h | h)
        · exact Or.inl (Ne.symm h)
        · exact Or.inr (Ne.symm h)
      have hsorted := hpair.perm (List.perm_insertionSort feedGE pkgs).symm
        (fun h => hsym h)
      exact List.Pairwise.sublist (List.filter_sublist _) hsorted

/-- Witness for the amended C5 at concrete inputs: both aggregators and
the full poll keep name-and-version uniqueness on duplicate-free
inputs. -/
theorem claim_C5_witness :
    ([NewPackage 7 "A" "1.1" FeedName, NewPackage 5 "Z" "1.0" FeedName].Pairwise
      fun a b => a.Name ≠ b.Name ∨ a.Version ≠ b.Version) ∧
    ([NewPackage 7 "A" "1.1" FeedName, NewPackage 5 "A" "1.0" FeedName,
       NewPackage 5 "Z" "1.0" FeedName].Pairwise
      fun a b => a.Name ≠ b.Name ∨ a.Version ≠ b.Version) ∧
    ([NewPackage 7 "A" "1.1" FeedName, NewPackage 5 "A" "1.0" FeedName].Pairwise
      fun a b => a.Name ≠ b.Name ∨ a.Version ≠ b.Version) :=
  ⟨claim_C5_amended.1 exEnv ["A", "Z"] (uniquePackages ["A", "Z"])
      [NewPackage 7 "A" "1.1" FeedName, NewPackage 5 "Z" "1.0" FeedName] []
      (by decide) (List.Perm.refl _) (by decide),
   claim_C5_amended.2.1 exEnv ["A", "Z"] ["A", "Z"]
      [NewPackage 7 "A" "1.1" FeedName, NewPackage 5 "A" "1.0" FeedName,
       NewPackage 5 "Z" "1.0" FeedName] []
      (by decide) (List.Perm.refl _) (by decide) (by decide),
   claim_C5_amended.2.2 { packages := some ["A"] } exEnv (.ok []) [] ["A"] 0
      [NewPackage 7 "A" "1.1" FeedName, NewPackage 5 "A" "1.0" FeedName]
      [NewPackage 7 "A" "1.1" FeedName, NewPackage 5 "A" "1.0" FeedName] [] []
      (by decide) (by decide) (by decide)⟩

end PackageFeeds
